import Mathlib

/-!
Verification development for a small server that exposes a SQLite-backed
database over the PostgreSQL wire protocol, with the database file persisted
in blob storage.  The definitions below are shallow embeddings of the Go
source: `SQLiteBackend` transaction handling, the `TransactionManager` commit
path with its depth-1 signal channel, the wire handler's BEGIN mode
resolution, the local-filesystem blob storage, the database cache download,
the SQLite-to-PostgreSQL error code mapping, and prepared-statement
management.
-/

/-! ## Go string helpers (strings.ToUpper, strings.Contains) -/

/-- Go `strings.ToUpper` restricted to ASCII: map a lowercase ASCII letter to
its uppercase form, leave every other character unchanged. -/
def goUpperChar (c : Char) : Char :=
  if 'a' ≤ c ∧ c ≤ 'z' then Char.ofNat (c.toNat - 32) else c

/-- Go `strings.ToUpper` over a string represented as a character list. -/
def goToUpper (s : List Char) : List Char := s.map goUpperChar

/-- Check whether `sub` is an initial segment of `s` (used by `goContains`). -/
def leadsWith : List Char → List Char → Bool
  | [], _ => true
  | _ :: _, [] => false
  | a :: as, b :: bs => (a == b) && leadsWith as bs

/-- Go `strings.Contains haystack needle`, written `goContains needle haystack`:
`needle` occurs as a contiguous substring of `haystack`. -/
def goContains (sub : List Char) : List Char → Bool
  | [] => leadsWith sub []
  | c :: t => leadsWith sub (c :: t) || goContains sub t

/-- Specification-level substring predicate: `sub` occurs contiguously in `s`. -/
def IsSubstringOf (sub s : List Char) : Prop :=
  ∃ pre post, s = pre ++ sub ++ post

theorem leadsWith_iff (sub s : List Char) :
    leadsWith sub s = true ↔ ∃ rest, s = sub ++ rest := by
  induction sub generalizing s with
  | nil => simp [leadsWith]
  | cons a as ih =>
    cases s with
    | nil =>
      simp [leadsWith]
    | cons b bs =>
      simp only [leadsWith, Bool.and_eq_true, beq_iff_eq, ih]
      constructor
      · rintro ⟨rfl, rest, rfl⟩
        exact ⟨rest, rfl⟩
      · rintro ⟨rest, h⟩
        cases h
        exact ⟨rfl, rest, rfl⟩

theorem goContains_iff (sub s : List Char) :
    goContains sub s = true ↔ IsSubstringOf sub s := by
  unfold IsSubstringOf
  induction s with
  | nil =>
    simp only [goContains, leadsWith_iff]
    constructor
    · rintro ⟨rest, h⟩
      exact ⟨[], rest, by simpa using h⟩
    · rintro ⟨pre, post, h⟩
      rcases List.append_eq_nil.mp (List.append_eq_nil.mp h.symm).1 with ⟨h1, h2⟩
      exact ⟨post, by simp [h2, (List.append_eq_nil.mp h.symm).2.symm, h1]⟩
  | cons c t ih =>
    simp only [goContains, Bool.or_eq_true, leadsWith_iff, ih]
    constructor
    · rintro (⟨rest, h⟩ | ⟨pre, post, h⟩)
      · exact ⟨[], rest, by simpa using h⟩
      · exact ⟨c :: pre, post, by simp [h]⟩
    · rintro ⟨pre, post, h⟩
      cases pre with
      | nil => exact Or.inl ⟨post, by simpa using h⟩
      | cons p ps =>
        simp only [List.cons_append, List.cons.injEq] at h
        exact Or.inr ⟨ps, post, h.2⟩

/-! ## Transaction state machine (`SQLiteBackend` in the Go source)

`ConnectionState` mirrors the Go struct's transaction-relevant fields: the
`*sql.Tx` handle (`none` embeds Go's `nil`), the `InTx` flag and the
`TxStatus` enum.  Engine outcomes (`sql.Tx.Commit()` etc.) are passed in as
explicit parameters, `none` meaning success and `some e` the engine error
message `e`. -/

/-- Transaction status enum from the Go source (`TxIdle`, `TxInTransaction`,
`TxFailed`). -/
inductive TransactionStatus
  | TxIdle
  | TxInTransaction
  | TxFailed
deriving DecidableEq, Repr

/-- Transaction-relevant fields of the Go `ConnectionState` struct. -/
structure ConnectionState where
  tx : Option Nat
  inTx : Bool
  txStatus : TransactionStatus
deriving DecidableEq, Repr

/-- `SQLiteBackend.BeginTransaction`: refuse when already in a transaction,
otherwise install the engine transaction handle on engine success.
`engineBegin` is the outcome of the engine's begin (`.ok h` yields the new
handle `h`). -/
def BeginTransaction (conn : ConnectionState) (engineBegin : Except String Nat) :
    ConnectionState × Option String :=
  if conn.inTx then
    (conn, some "transaction already in progress")
  else
    match engineBegin with
    | .error e => (conn, some ("failed to begin transaction: " ++ e))
    | .ok h =>
      ({ conn with tx := some h, inTx := true,
                   txStatus := TransactionStatus.TxInTransaction }, none)

/-- `SQLiteBackend.CommitTransaction`: misuse error when no transaction is in
progress; on engine commit failure mark the connection `TxFailed` and
propagate; on success clear the handle and return to `TxIdle`. -/
def CommitTransaction (conn : ConnectionState) (engineCommit : Option String) :
    ConnectionState × Option String :=
  if !conn.inTx || conn.tx.isNone then
    (conn, some "no transaction in progress")
  else
    match engineCommit with
    | some e =>
      ({ conn with txStatus := TransactionStatus.TxFailed },
       some ("failed to commit transaction: " ++ e))
    | none =>
      ({ conn with tx := none, inTx := false,
                   txStatus := TransactionStatus.TxIdle }, none)

/-- Result of `SQLiteBackend.RollbackTransaction` together with whether the
engine-level `conn.Tx.Rollback()` was actually invoked. -/
structure RollbackOutcome where
  state : ConnectionState
  err : Option String
  engineInvoked : Bool
deriving DecidableEq, Repr

/-- `SQLiteBackend.RollbackTransaction`, instrumented with whether the engine
rollback was attempted: misuse error when no transaction is in progress (no
engine call); on engine rollback failure propagate the error leaving the
state untouched; on success clear the handle and return to `TxIdle`. -/
def RollbackTransactionTrace (conn : ConnectionState) (engineRollback : Option String) :
    RollbackOutcome :=
  if !conn.inTx || conn.tx.isNone then
    ⟨conn, some "no transaction in progress", false⟩
  else
    match engineRollback with
    | some e => ⟨conn, some ("failed to rollback transaction: " ++ e), true⟩
    | none =>
      ⟨{ conn with tx := none, inTx := false,
                   txStatus := TransactionStatus.TxIdle }, none, true⟩

/-- `SQLiteBackend.RollbackTransaction` as seen by its callers. -/
def RollbackTransaction (conn : ConnectionState) (engineRollback : Option String) :
    ConnectionState × Option String :=
  let r := RollbackTransactionTrace conn engineRollback
  (r.state, r.err)

/-- `SimpleWireHandler.handleRollbackSimple`: any rollback error is logged and
`nil` is returned to the wire layer, so the client never sees a rollback
error.  The returned `Option String` is the client-visible error. -/
def handleRollbackSimple (conn : ConnectionState) (engineRollback : Option String) :
    ConnectionState × Option String :=
  ((RollbackTransaction conn engineRollback).1, none)

/-- A transaction-control operation applied to one connection, carrying the
engine outcome it will observe. -/
inductive TxOp
  | beginOp (engine : Except String Nat)
  | commitOp (engine : Option String)
  | rollbackOp (engine : Option String)

/-- One step of the per-connection transaction state machine. -/
def stepConn (conn : ConnectionState) : TxOp → ConnectionState × Option String
  | .beginOp eng => BeginTransaction conn eng
  | .commitOp eng => CommitTransaction conn eng
  | .rollbackOp eng => RollbackTransaction conn eng

/-- Well-formedness of a connection state, as maintained by the Go code: the
`InTx` flag, the presence of the handle and the non-`TxIdle` statuses agree. -/
def WfConn (conn : ConnectionState) : Prop :=
  (conn.inTx = true ↔ conn.tx.isSome) ∧
  (conn.txStatus = TransactionStatus.TxIdle ↔ conn.inTx = false)

instance (conn : ConnectionState) : Decidable (WfConn conn) := by
  unfold WfConn; infer_instance

/-! ## TransactionManager (`transaction.go`)

The manager owns the pending-upload flag and a buffered channel of depth 1
used to signal the upload worker.  The channel is embedded as a list of
queued messages: a non-blocking send (`select` with a `default` branch in Go)
appends only when the buffer has room. -/

/-- Sync-relevant state of the Go `TransactionManager`. -/
structure TMState where
  uploadPending : Bool
  uploadChan : List Bool
deriving DecidableEq, Repr

/-- `NewTransactionManager`: pending flag unset, empty depth-1 channel. -/
def NewTransactionManager : TMState :=
  { uploadPending := false, uploadChan := [] }

/-- Non-blocking send on the depth-1 `uploadChan` (Go `select` with
`default`): enqueue when there is room, otherwise drop the signal. -/
def trySendUpload (ch : List Bool) : List Bool :=
  if ch.length < 1 then ch ++ [true] else ch

/-- `TransactionManager.Commit`: delegate to the backend commit; on success
set the pending-upload flag and send the dirty-signal without blocking, on
failure return the error unchanged without touching the sync state. -/
def TMCommit (tm : TMState) (conn : ConnectionState) (engineCommit : Option String) :
    TMState × ConnectionState × Option String :=
  match CommitTransaction conn engineCommit with
  | (conn', some e) => (tm, conn', some e)
  | (conn', none) =>
    ({ uploadPending := true, uploadChan := trySendUpload tm.uploadChan },
     conn', none)

/-! ## BEGIN mode resolution (`SimpleWireHandler.handleBeginSimple`) -/

/-- Mode resolution in `handleBeginSimple`: default `deferred`, overridden to
`immediate` when the upper-cased query contains `IMMEDIATE`, else to
`exclusive` when it contains `EXCLUSIVE`. -/
def resolveBeginMode (query : List Char) : List Char :=
  let upperQuery := goToUpper query
  if goContains "IMMEDIATE".data upperQuery then "immediate".data
  else if goContains "EXCLUSIVE".data upperQuery then "exclusive".data
  else "deferred".data

/-- Specification-level case-insensitive keyword containment: some contiguous
piece of `q` upper-cases to `kw`. -/
def ContainsKeywordCI (q kw : List Char) : Prop :=
  ∃ mid, IsSubstringOf mid q ∧ goToUpper mid = kw

/-! ## Query / Exec routing (`SQLiteBackend.Query`, `SQLiteBackend.Exec`) -/

/-- The engine handle a statement is executed against. -/
inductive ExecTarget
  | txHandle (h : Nat)
  | dbHandle
deriving DecidableEq, Repr

/-- Handle selection in `SQLiteBackend.Query`: the transaction handle when
`conn.InTx && conn.Tx != nil`, otherwise the shared database handle. -/
def QueryRoute (conn : ConnectionState) : ExecTarget :=
  match conn.inTx, conn.tx with
  | true, some h => ExecTarget.txHandle h
  | _, _ => ExecTarget.dbHandle

/-- Handle selection in `SQLiteBackend.Exec`: same guard as `QueryRoute`. -/
def ExecRoute (conn : ConnectionState) : ExecTarget :=
  match conn.inTx, conn.tx with
  | true, some h => ExecTarget.txHandle h
  | _, _ => ExecTarget.dbHandle

/-! ## Local filesystem blob storage (`storage.go`, `LocalStorage`)

The filesystem is an association list from paths (character lists) to file
contents (byte lists).  `LocalStorage.Upload` is embedded as the sequence of
filesystem states it produces: create the temporary file, copy the data into
it, then rename it over the final path. -/

/-- The modelled filesystem: path to file contents. -/
def FS := List (List Char × List Nat)
deriving DecidableEq, Repr

/-- Contents of the file at `p`, `none` when no such file exists. -/
def fsLookup (fs : FS) (p : List Char) : Option (List Nat) :=
  match fs with
  | [] => none
  | (q, d) :: rest => if q = p then some d else fsLookup rest p

/-- Create or overwrite the file at `p` with contents `d`. -/
def fsWrite (fs : FS) (p : List Char) (d : List Nat) : FS :=
  match fs with
  | [] => [(p, d)]
  | (q, e) :: rest => if q = p then (p, d) :: rest else (q, e) :: fsWrite rest p d

/-- Remove the file at `p` when present. -/
def fsErase (fs : FS) (p : List Char) : FS :=
  match fs with
  | [] => []
  | (q, e) :: rest => if q = p then rest else (q, e) :: fsErase rest p

/-- `filepath.Join(basePath, dbName + ".sqlite")` for the local backend. -/
def blobPath (base name : List Char) : List Char :=
  base ++ "/".data ++ name ++ ".sqlite".data

/-- `LocalStorage.Download`: open the blob file; a missing file is the
first-class absent outcome (`none`), not an error. -/
def lsDownload (fs : FS) (base name : List Char) : Option (List Nat) :=
  fsLookup fs (blobPath base name)

/-- State after `os.Create(tmpPath)` inside `LocalStorage.Upload`. -/
def lsUploadStep1 (fs : FS) (base name : List Char) : FS :=
  fsWrite fs (blobPath base name ++ ".tmp".data) []

/-- State after `io.Copy(tmpFile, data)` inside `LocalStorage.Upload`. -/
def lsUploadStep2 (fs : FS) (base name : List Char) (data : List Nat) : FS :=
  fsWrite (lsUploadStep1 fs base name) (blobPath base name ++ ".tmp".data) data

/-- Final state of `LocalStorage.Upload`: `os.Rename(tmpPath, path)` removes
the temporary file and installs its contents under the final path. -/
def lsUpload (fs : FS) (base name : List Char) (data : List Nat) : FS :=
  fsWrite (fsErase (lsUploadStep2 fs base name data) (blobPath base name ++ ".tmp".data))
    (blobPath base name) data

/-- The one error `os.Remove` can report in this pure model. -/
inductive OsError
  | notExist
deriving DecidableEq, Repr

/-- `os.Remove`: delete the file, or report that it does not exist. -/
def osRemove (fs : FS) (p : List Char) : FS × Option OsError :=
  match fsLookup fs p with
  | some _ => (fsErase fs p, none)
  | none => (fs, some OsError.notExist)

/-- `LocalStorage.Delete`: remove the blob file, swallowing the
does-not-exist error (`err != nil && !os.IsNotExist(err)` guard). -/
def lsDelete (fs : FS) (base name : List Char) : FS × Option String :=
  match osRemove fs (blobPath base name) with
  | (fs', none) => (fs', none)
  | (fs', some OsError.notExist) => (fs', none)

/-- `LocalStorage.Exists`: `os.Stat` succeeds exactly when the file exists. -/
def lsExists (fs : FS) (base name : List Char) : Bool :=
  (fsLookup fs (blobPath base name)).isSome

/-! ## Database cache download (`storage.go`, `DatabaseCache.Download`) -/

/-- Sync-relevant fields of the Go `DatabaseCache`. -/
structure DatabaseCache where
  localPath : List Char
  lastSync : Nat
deriving DecidableEq, Repr

/-- `DatabaseCache.Download`: propagate a storage error; when the blob is
absent (`reader == nil`) create an empty local file and record the sync time;
otherwise copy the blob's bytes into the local file and record the sync time.
`storeResult` is the outcome of `storage.Download(ctx, dbName)`. -/
def cacheDownload (c : DatabaseCache) (storeResult : Except String (Option (List Nat)))
    (fs : FS) (now : Nat) : DatabaseCache × FS × Option String :=
  match storeResult with
  | .error e => (c, fs, some ("failed to download database: " ++ e))
  | .ok none =>
    ({ c with lastSync := now }, fsWrite fs c.localPath [], none)
  | .ok (some data) =>
    ({ c with lastSync := now }, fsWrite fs c.localPath data, none)

/-! ## Error translation (`MapSQLiteError`) -/

/-- `MapSQLiteError`: map a SQLite error message to a PostgreSQL SQLSTATE
code by ordered substring matching; `none` embeds a `nil` error. -/
def MapSQLiteError (err : Option (List Char)) : List Char :=
  match err with
  | none => "00000".data
  | some errMsg =>
    if goContains "UNIQUE constraint failed".data errMsg then "23505".data
    else if goContains "NOT NULL constraint failed".data errMsg then "23502".data
    else if goContains "FOREIGN KEY constraint failed".data errMsg then "23503".data
    else if goContains "CHECK constraint failed".data errMsg then "23514".data
    else if goContains "constraint failed".data errMsg then "23000".data
    else if goContains "database is locked".data errMsg then "40001".data
    else if goContains "disk I/O error".data errMsg then "08006".data
    else if goContains "database disk image is malformed".data errMsg then "58030".data
    else if goContains "no such table".data errMsg then "42P01".data
    else if goContains "no such column".data errMsg then "42703".data
    else if goContains "syntax error".data errMsg then "42601".data
    else if goContains "out of memory".data errMsg then "53200".data
    else if goContains "disk full".data errMsg then "53100".data
    else "XX000".data

/-- The substring patterns of `MapSQLiteError`'s cascade, in matching order;
a message matching none of them is unclassified. -/
def sqliteErrorPatterns : List (List Char) :=
  ["UNIQUE constraint failed".data, "NOT NULL constraint failed".data,
   "FOREIGN KEY constraint failed".data, "CHECK constraint failed".data,
   "constraint failed".data, "database is locked".data, "disk I/O error".data,
   "database disk image is malformed".data, "no such table".data,
   "no such column".data, "syntax error".data, "out of memory".data,
   "disk full".data]

/-! ## Prepared statements (`SQLiteBackend.Prepare`, `SQLiteBackend.ClosePrepared`)

Statement handles are numbered by an allocator; `openHandles` tracks the
handles whose engine statements are currently open.  `sql.Stmt.Close()` on a
handle removes it from the open set. -/

/-- Prepared-statement state of one connection, with the set of open engine
statement handles and a fresh-handle allocator. -/
structure PrepState where
  preparedStmts : List (List Char × Nat)
  openHandles : List Nat
  nextHandle : Nat
deriving DecidableEq, Repr

/-- Look up the statement handle bound to `name` in the map. -/
def stmtLookup (m : List (List Char × Nat)) (name : List Char) : Option Nat :=
  match m with
  | [] => none
  | (k, v) :: rest => if k = name then some v else stmtLookup rest name

/-- Bind `name` to handle `h`, replacing a previous binding of `name`. -/
def stmtInsert (m : List (List Char × Nat)) (name : List Char) (h : Nat) :
    List (List Char × Nat) :=
  match m with
  | [] => [(name, h)]
  | (k, v) :: rest => if k = name then (name, h) :: rest else (k, v) :: stmtInsert rest name h

/-- Remove the binding of `name` from the map. -/
def stmtRemove (m : List (List Char × Nat)) (name : List Char) :
    List (List Char × Nat) :=
  match m with
  | [] => []
  | (k, v) :: rest => if k = name then rest else (k, v) :: stmtRemove rest name

/-- `SQLiteBackend.Prepare`: first close any statement already bound to
`name`, then ask the engine to prepare the query (`engineOk`); on engine
success bind `name` to the fresh handle, on engine failure report the error
(the map entry is left as it was, its handle now closed). -/
def Prepare (st : PrepState) (name : List Char) (engineOk : Bool) :
    PrepState × Option String :=
  let st1 :=
    match stmtLookup st.preparedStmts name with
    | some old => { st with openHandles := st.openHandles.erase old }
    | none => st
  if engineOk then
    ({ st1 with preparedStmts := stmtInsert st1.preparedStmts name st1.nextHandle,
                openHandles := st1.nextHandle :: st1.openHandles,
                nextHandle := st1.nextHandle + 1 }, none)
  else
    (st1, some "failed to prepare statement")

/-- `SQLiteBackend.ClosePrepared`: a missing name is a no-op success;
otherwise close the statement and drop the binding. -/
def ClosePrepared (st : PrepState) (name : List Char) : PrepState × Option String :=
  match stmtLookup st.preparedStmts name with
  | none => (st, none)
  | some h =>
    ({ st with openHandles := st.openHandles.erase h,
               preparedStmts := stmtRemove st.preparedStmts name }, none)

/-- Well-formedness of prepared-statement state: map keys are distinct, open
handles are distinct, and the allocator is ahead of every handle ever issued
(bound or open). -/
def WfPrep (st : PrepState) : Prop :=
  (st.preparedStmts.map Prod.fst).Nodup ∧
  st.openHandles.Nodup ∧
  (∀ e ∈ st.preparedStmts, e.2 < st.nextHandle) ∧
  (∀ h ∈ st.openHandles, h < st.nextHandle)

instance (st : PrepState) : Decidable (WfPrep st) := by
  unfold WfPrep; infer_instance

/-! ## Helper lemmas about the filesystem and statement maps -/

theorem fsLookup_fsWrite_self (fs : FS) (p : List Char) (d : List Nat) :
    fsLookup (fsWrite fs p d) p = some d := by
  induction fs with
  | nil => simp [fsWrite, fsLookup]
  | cons e rest ih =>
    obtain ⟨q, x⟩ := e
    by_cases hq : q = p
    · simp [fsWrite, hq, fsLookup]
    · simp [fsWrite, hq, fsLookup, ih]

theorem fsLookup_fsWrite_ne (fs : FS) {p q : List Char} (d : List Nat) (h : q ≠ p) :
    fsLookup (fsWrite fs q d) p = fsLookup fs p := by
  induction fs with
  | nil => simp [fsWrite, fsLookup, h]
  | cons e rest ih =>
    obtain ⟨r, x⟩ := e
    by_cases hr : r = q
    · subst hr
      simp [fsWrite, fsLookup, h]
    · simp only [fsWrite, if_neg hr, fsLookup, ih]

theorem fsLookup_eq_none_of_not_mem {fs : FS} {p : List Char}
    (h : p ∉ fs.map Prod.fst) : fsLookup fs p = none := by
  induction fs with
  | nil => simp [fsLookup]
  | cons e rest ih =>
    obtain ⟨q, x⟩ := e
    simp only [List.map_cons, List.mem_cons, not_or] at h
    have h1 : ¬ q = p := fun hq => h.1 hq.symm
    simp [fsLookup, h1, ih h.2]

theorem fsLookup_fsErase_self {fs : FS} (p : List Char)
    (h : (fs.map Prod.fst).Nodup) : fsLookup (fsErase fs p) p = none := by
  induction fs with
  | nil => simp [fsErase, fsLookup]
  | cons e rest ih =>
    obtain ⟨q, x⟩ := e
    simp only [List.map_cons, List.nodup_cons] at h
    by_cases hq : q = p
    · subst hq
      simpa [fsErase] using fsLookup_eq_none_of_not_mem h.1
    · simp [fsErase, hq, fsLookup, ih h.2]

theorem tmpPath_ne (base name : List Char) :
    blobPath base name ++ ".tmp".data ≠ blobPath base name := by
  intro h
  have hl := congrArg List.length h
  have h4 : (".tmp".data).length = 4 := by decide
  rw [List.length_append, h4] at hl
  omega

theorem stmtLookup_stmtInsert_self (m : List (List Char × Nat)) (name : List Char) (h : Nat) :
    stmtLookup (stmtInsert m name h) name = some h := by
  induction m with
  | nil => simp [stmtInsert, stmtLookup]
  | cons e rest ih =>
    obtain ⟨k, v⟩ := e
    by_cases hk : k = name
    · simp [stmtInsert, hk, stmtLookup]
    · simp [stmtInsert, hk, stmtLookup, ih]

theorem stmtLookup_stmtInsert_ne (m : List (List Char × Nat)) {name n : List Char} (h : Nat)
    (hne : n ≠ name) : stmtLookup (stmtInsert m name h) n = stmtLookup m n := by
  have hne' : ¬ name = n := fun he => hne he.symm
  induction m with
  | nil => simp [stmtInsert, stmtLookup, hne']
  | cons e rest ih =>
    obtain ⟨k, v⟩ := e
    by_cases hk : k = name
    · subst hk
      simp [stmtInsert, stmtLookup, hne']
    · simp only [stmtInsert, if_neg hk, stmtLookup, ih]

theorem mem_of_stmtLookup {m : List (List Char × Nat)} {n : List Char} {h : Nat}
    (hl : stmtLookup m n = some h) : (n, h) ∈ m := by
  induction m with
  | nil => simp [stmtLookup] at hl
  | cons e rest ih =>
    obtain ⟨k, v⟩ := e
    by_cases hk : k = n
    · subst hk
      simp [stmtLookup] at hl
      subst hl
      exact List.mem_cons_self _ _
    · simp only [stmtLookup, if_neg hk] at hl
      exact List.mem_cons_of_mem _ (ih hl)

theorem mem_stmtInsert {m : List (List Char × Nat)} {name : List Char} {h : Nat}
    {e : List Char × Nat} (he : e ∈ stmtInsert m name h) :
    e = (name, h) ∨ e ∈ m := by
  induction m with
  | nil => simpa [stmtInsert] using he
  | cons f rest ih =>
    obtain ⟨k, v⟩ := f
    by_cases hk : k = name
    · simp only [stmtInsert, if_pos hk, List.mem_cons] at he
      rcases he with he | he
      · exact Or.inl he
      · exact Or.inr (List.mem_cons_of_mem _ he)
    · simp only [stmtInsert, if_neg hk, List.mem_cons] at he
      rcases he with he | he
      · exact Or.inr (by simp [he])
      · rcases ih he with he | he
        · exact Or.inl he
        · exact Or.inr (List.mem_cons_of_mem _ he)

theorem mem_keys_stmtInsert {m : List (List Char × Nat)} {name : List Char} {h : Nat}
    {a : List Char} (ha : a ∈ (stmtInsert m name h).map Prod.fst) :
    a = name ∨ a ∈ m.map Prod.fst := by
  rcases List.mem_map.mp ha with ⟨e, he, rfl⟩
  rcases mem_stmtInsert he with he | he
  · exact Or.inl (by simp [he])
  · exact Or.inr (List.mem_map_of_mem _ he)

theorem keys_stmtInsert_nodup {m : List (List Char × Nat)} {name : List Char} {h : Nat}
    (hm : (m.map Prod.fst).Nodup) : ((stmtInsert m name h).map Prod.fst).Nodup := by
  induction m with
  | nil => simp [stmtInsert]
  | cons f rest ih =>
    obtain ⟨k, v⟩ := f
    simp only [List.map_cons, List.nodup_cons] at hm
    by_cases hk : k = name
    · subst hk
      simpa [stmtInsert] using hm
    · simp only [stmtInsert, if_neg hk, List.map_cons]
      refine List.nodup_cons.mpr ⟨?_, ih hm.2⟩
      intro hmem
      rcases mem_keys_stmtInsert hmem with rfl | hmem
      · exact hk rfl
      · exact hm.1 hmem

theorem mem_stmtRemove {m : List (List Char × Nat)} {name : List Char}
    {e : List Char × Nat} (he : e ∈ stmtRemove m name) : e ∈ m := by
  induction m with
  | nil => simp [stmtRemove] at he
  | cons f rest ih =>
    obtain ⟨k, v⟩ := f
    by_cases hk : k = name
    · simp only [stmtRemove, if_pos hk] at he
      exact List.mem_cons_of_mem _ he
    · simp only [stmtRemove, if_neg hk, List.mem_cons] at he
      rcases he with he | he
      · exact by simp [he]
      · exact List.mem_cons_of_mem _ (ih he)

theorem keys_stmtRemove_nodup {m : List (List Char × Nat)} {name : List Char}
    (hm : (m.map Prod.fst).Nodup) : ((stmtRemove m name).map Prod.fst).Nodup := by
  induction m with
  | nil => simp [stmtRemove]
  | cons f rest ih =>
    obtain ⟨k, v⟩ := f
    simp only [List.map_cons, List.nodup_cons] at hm
    by_cases hk : k = name
    · simp only [stmtRemove, if_pos hk]
      exact hm.2
    · simp only [stmtRemove, if_neg hk, List.map_cons]
      refine List.nodup_cons.mpr ⟨?_, ih hm.2⟩
      intro hmem
      rcases List.mem_map.mp hmem with ⟨e, he, hfst⟩
      exact hm.1 (hfst ▸ List.mem_map_of_mem _ (mem_stmtRemove he))

theorem containsKeywordCI_iff (q kw : List Char) :
    ContainsKeywordCI q kw ↔ goContains kw (goToUpper q) = true := by
  rw [goContains_iff]
  unfold ContainsKeywordCI IsSubstringOf goToUpper
  constructor
  · rintro ⟨mid, ⟨pre, post, rfl⟩, rfl⟩
    exact ⟨pre.map goUpperChar, post.map goUpperChar, by simp⟩
  · rintro ⟨pre, post, h⟩
    have h' : List.map goUpperChar q = pre ++ (kw ++ post) := by
      simpa [List.append_assoc] using h
    rcases List.map_eq_append_iff.mp h' with ⟨l1, l2, hq, h1, h2⟩
    rcases List.map_eq_append_iff.mp h2 with ⟨l3, l4, hl2, h3, h4⟩
    refine ⟨l3, ⟨l1, l4, ?_⟩, h3⟩
    rw [hq, hl2]
    simp [List.append_assoc]

theorem not_containsKeywordCI {q kw : List Char}
    (h : goContains kw (goToUpper q) = false) : ¬ ContainsKeywordCI q kw := by
  rw [containsKeywordCI_iff, h]
  simp

theorem wfConn_step (conn : ConnectionState) (hwf : WfConn conn) (op : TxOp) :
    WfConn (stepConn conn op).1 := by
  obtain ⟨tx, inTx, st⟩ := conn
  obtain ⟨h1, h2⟩ := hwf
  rcases op with eng | eng | eng
  all_goals
    cases eng <;> cases inTx <;> cases tx <;> cases st <;>
      simp_all [WfConn, stepConn, BeginTransaction, CommitTransaction,
        RollbackTransaction, RollbackTransactionTrace]

/-! ## Claim theorems -/

/-- C1: on a single connection the transaction status follows the state
machine: Idle goes to Active on successful Begin, Active goes to Idle on
successful Commit, Active goes to Failed on a commit error, the status
returns to Idle on successful Rollback; Begin while a transaction is active
fails with the already-in-transaction error and Commit while Idle fails with
the no-active-transaction misuse error, each leaving the state unchanged;
well-formedness is preserved by every operation, so this covers every
sequence of Begin/Commit/Rollback operations. -/
theorem c1_transaction_state_machine (conn : ConnectionState) (hwf : WfConn conn) :
    (∀ op, WfConn (stepConn conn op).1) ∧
    (∀ hdl, conn.txStatus = TransactionStatus.TxIdle →
        (stepConn conn (TxOp.beginOp (Except.ok hdl))).1.txStatus
            = TransactionStatus.TxInTransaction ∧
        (stepConn conn (TxOp.beginOp (Except.ok hdl))).2 = none) ∧
    (conn.txStatus = TransactionStatus.TxInTransaction →
        (stepConn conn (TxOp.commitOp none)).1.txStatus = TransactionStatus.TxIdle ∧
        (stepConn conn (TxOp.commitOp none)).2 = none) ∧
    (∀ e, conn.txStatus = TransactionStatus.TxInTransaction →
        (stepConn conn (TxOp.commitOp (some e))).1.txStatus = TransactionStatus.TxFailed) ∧
    (conn.txStatus ≠ TransactionStatus.TxIdle →
        (stepConn conn (TxOp.rollbackOp none)).1.txStatus = TransactionStatus.TxIdle ∧
        (stepConn conn (TxOp.rollbackOp none)).2 = none) ∧
    (∀ eng, conn.txStatus = TransactionStatus.TxInTransaction →
        stepConn conn (TxOp.beginOp eng) = (conn, some "transaction already in progress")) ∧
    (∀ eng, conn.txStatus = TransactionStatus.TxIdle →
        stepConn conn (TxOp.commitOp eng) = (conn, some "no transaction in progress")) := by
  refine ⟨fun op => wfConn_step conn hwf op, ?_, ?_, ?_, ?_, ?_, ?_⟩
  all_goals
    obtain ⟨tx, inTx, st⟩ := conn
    obtain ⟨h1, h2⟩ := hwf
    intros
    cases inTx <;> cases tx <;> cases st <;>
      simp_all [stepConn, BeginTransaction, CommitTransaction,
        RollbackTransaction, RollbackTransactionTrace]

/-- Witness for C1 at concrete inputs: a fresh idle connection transitions to
Active on a successful Begin. -/
theorem c1_transaction_state_machine_witness :
    (stepConn ⟨none, false, TransactionStatus.TxIdle⟩
        (TxOp.beginOp (Except.ok 0))).1.txStatus = TransactionStatus.TxInTransaction :=
  ((c1_transaction_state_machine ⟨none, false, TransactionStatus.TxIdle⟩
      (by decide)).2.1 0 rfl).1

/-- C2 counterexample: the claim that Rollback attempts the engine rollback
regardless of status and unconditionally leaves the connection Idle is false
on the code: from the Failed state a failing engine rollback leaves the
status non-Idle, and from the Idle state the engine rollback is not
attempted at all. -/
theorem c2_rollback_counterexample :
    (RollbackTransactionTrace ⟨some 0, true, TransactionStatus.TxFailed⟩
        (some "rollback failed")).state.txStatus ≠ TransactionStatus.TxIdle ∧
    (RollbackTransactionTrace ⟨none, false, TransactionStatus.TxIdle⟩
        none).engineInvoked = false := by
  decide

/-- C2 (amended): Rollback attempts the engine rollback only when a
transaction handle is held; on engine success the connection becomes Idle,
on engine rollback failure the error is returned and the state is left
unchanged (not forced to Idle); with no transaction in progress no engine
rollback is attempted and a misuse error is returned with the state
unchanged.  The wire handler reports no rollback error to the client in any
case (errors are logged, not propagated). -/
theorem c2_rollback_amended (conn : ConnectionState) (eng : Option String) :
    (conn.inTx = true → conn.tx.isSome = true →
        (RollbackTransactionTrace conn eng).engineInvoked = true ∧
        (eng = none →
            (RollbackTransactionTrace conn eng).state.txStatus = TransactionStatus.TxIdle ∧
            (RollbackTransactionTrace conn eng).err = none) ∧
        (∀ e, eng = some e →
            (RollbackTransactionTrace conn eng).state = conn ∧
            (RollbackTransactionTrace conn eng).err
                = some ("failed to rollback transaction: " ++ e))) ∧
    ((conn.inTx = false ∨ conn.tx = none) →
        (RollbackTransactionTrace conn eng).engineInvoked = false ∧
        (RollbackTransactionTrace conn eng).state = conn ∧
        (RollbackTransactionTrace conn eng).err = some "no transaction in progress") ∧
    ((handleRollbackSimple conn eng).2 = none ∧
        (handleRollbackSimple conn eng).1 = (RollbackTransaction conn eng).1) := by
  obtain ⟨tx, inTx, st⟩ := conn
  cases inTx <;> cases tx <;> cases eng <;>
    simp [RollbackTransactionTrace, handleRollbackSimple, RollbackTransaction]

/-- Witness for C2 (amended) at a concrete input: successful rollback of an
active transaction ends Idle. -/
theorem c2_rollback_amended_witness :
    (RollbackTransactionTrace ⟨some 0, true, TransactionStatus.TxInTransaction⟩
        none).state.txStatus = TransactionStatus.TxIdle :=
  (((c2_rollback_amended ⟨some 0, true, TransactionStatus.TxInTransaction⟩
      none).1 rfl rfl).2.1 rfl).1

/-- C3: when the engine commit succeeds the manager sets the pending-upload
flag and sends a dirty-signal on the depth-1 channel without blocking (an
empty channel receives the signal, a full one is silently skipped, and the
depth bound is preserved); when the commit fails the error is propagated and
the sync state (flag and channel) is untouched. -/
theorem c3_commit_signals_sync (tm : TMState) (conn : ConnectionState) (eng : Option String)
    (hcap : tm.uploadChan.length ≤ 1) :
    (∀ conn', CommitTransaction conn eng = (conn', none) →
        (TMCommit tm conn eng).1.uploadPending = true ∧
        (TMCommit tm conn eng).2 = (conn', none) ∧
        (TMCommit tm conn eng).1.uploadChan.length ≤ 1 ∧
        (tm.uploadChan = [] → (TMCommit tm conn eng).1.uploadChan = [true]) ∧
        (tm.uploadChan ≠ [] → (TMCommit tm conn eng).1.uploadChan = tm.uploadChan)) ∧
    (∀ conn' e, CommitTransaction conn eng = (conn', some e) →
        TMCommit tm conn eng = (tm, conn', some e)) := by
  constructor
  · rintro conn' hc
    simp only [TMCommit, hc]
    cases htm : tm.uploadChan with
    | nil => simp [trySendUpload, htm]
    | cons b rest =>
      rw [htm] at hcap
      simp only [List.length_cons] at hcap
      have hr : rest = [] := by
        cases rest
        · rfl
        · simp at hcap
      subst hr
      simp [trySendUpload]
  · rintro conn' e hc
    simp [TMCommit, hc]

/-- Witness for C3 at concrete inputs: a fresh manager committing an active
transaction sets the pending flag, and a failing engine commit propagates
the error leaving the manager unchanged. -/
theorem c3_commit_signals_sync_witness :
    (TMCommit NewTransactionManager ⟨some 0, true, TransactionStatus.TxInTransaction⟩
        none).1.uploadPending = true ∧
    TMCommit NewTransactionManager ⟨some 0, true, TransactionStatus.TxInTransaction⟩
        (some "boom")
      = (NewTransactionManager, ⟨some 0, true, TransactionStatus.TxFailed⟩,
         some "failed to commit transaction: boom") :=
  ⟨((c3_commit_signals_sync NewTransactionManager
        ⟨some 0, true, TransactionStatus.TxInTransaction⟩ none (by decide)).1
      ⟨none, false, TransactionStatus.TxIdle⟩ (by decide)).1,
   (c3_commit_signals_sync NewTransactionManager
        ⟨some 0, true, TransactionStatus.TxInTransaction⟩ (some "boom") (by decide)).2
      ⟨some 0, true, TransactionStatus.TxFailed⟩ "failed to commit transaction: boom"
      (by decide)⟩

/-- C4: the resolved transaction mode of a free-text BEGIN instruction is
immediate when the text contains the keyword IMMEDIATE case-insensitively,
otherwise exclusive when it contains EXCLUSIVE case-insensitively, otherwise
deferred. -/
theorem c4_begin_mode_resolution (q : List Char) :
    (ContainsKeywordCI q "IMMEDIATE".data → resolveBeginMode q = "immediate".data) ∧
    (¬ ContainsKeywordCI q "IMMEDIATE".data → ContainsKeywordCI q "EXCLUSIVE".data →
        resolveBeginMode q = "exclusive".data) ∧
    (¬ ContainsKeywordCI q "IMMEDIATE".data → ¬ ContainsKeywordCI q "EXCLUSIVE".data →
        resolveBeginMode q = "deferred".data) := by
  refine ⟨?_, ?_, ?_⟩
  · intro h
    rw [containsKeywordCI_iff] at h
    simp [resolveBeginMode, h]
  · intro h1 h2
    rw [containsKeywordCI_iff] at h2
    have h1' : goContains "IMMEDIATE".data (goToUpper q) = false := by
      rw [containsKeywordCI_iff] at h1
      simpa using h1
    simp [resolveBeginMode, h1', h2]
  · intro h1 h2
    have h1' : goContains "IMMEDIATE".data (goToUpper q) = false := by
      rw [containsKeywordCI_iff] at h1
      simpa using h1
    have h2' : goContains "EXCLUSIVE".data (goToUpper q) = false := by
      rw [containsKeywordCI_iff] at h2
      simpa using h2
    simp [resolveBeginMode, h1', h2']

/-- Witness for C4 at concrete inputs: one query for each of the three
resolution outcomes. -/
theorem c4_begin_mode_resolution_witness :
    resolveBeginMode "begin immediate".data = "immediate".data ∧
    resolveBeginMode "BEGIN EXCLUSIVE".data = "exclusive".data ∧
    resolveBeginMode "BEGIN".data = "deferred".data :=
  ⟨(c4_begin_mode_resolution "begin immediate".data).1
      ⟨"immediate".data, ⟨"begin ".data, [], by decide⟩, by decide⟩,
   (c4_begin_mode_resolution "BEGIN EXCLUSIVE".data).2.1
      (not_containsKeywordCI (by decide))
      ⟨"EXCLUSIVE".data, ⟨"BEGIN ".data, [], by decide⟩, by decide⟩,
   (c4_begin_mode_resolution "BEGIN".data).2.2
      (not_containsKeywordCI (by decide))
      (not_containsKeywordCI (by decide))⟩

/-- C5: Query and Exec run against the connection's transaction handle
exactly when the connection holds one (`InTx` set and handle present),
otherwise against the shared engine handle, and the two paths use the same
selection rule. -/
theorem c5_execution_routing (conn : ConnectionState) :
    (∀ h, conn.inTx = true → conn.tx = some h →
        QueryRoute conn = ExecTarget.txHandle h ∧ ExecRoute conn = ExecTarget.txHandle h) ∧
    ((conn.inTx = false ∨ conn.tx = none) →
        QueryRoute conn = ExecTarget.dbHandle ∧ ExecRoute conn = ExecTarget.dbHandle) ∧
    QueryRoute conn = ExecRoute conn := by
  obtain ⟨tx, inTx, st⟩ := conn
  cases inTx <;> cases tx <;> simp [QueryRoute, ExecRoute]

/-- Witness for C5 at a concrete input: an active transaction routes to its
handle. -/
theorem c5_execution_routing_witness :
    QueryRoute ⟨some 7, true, TransactionStatus.TxInTransaction⟩ = ExecTarget.txHandle 7 :=
  ((c5_execution_routing ⟨some 7, true, TransactionStatus.TxInTransaction⟩).1 7 rfl rfl).1

/-- C6: for the local backend, a successful Upload of bytes `data` under a
name followed by Download of that name returns exactly `data`, and during
the upload (after creating the temporary file and after filling it) the
content visible under the final name is still the old one — no partial
content is ever visible under the name. -/
theorem c6_upload_roundtrip_atomic (fs : FS) (base name : List Char) (data : List Nat) :
    lsDownload (lsUpload fs base name data) base name = some data ∧
    fsLookup (lsUploadStep1 fs base name) (blobPath base name)
        = fsLookup fs (blobPath base name) ∧
    fsLookup (lsUploadStep2 fs base name data) (blobPath base name)
        = fsLookup fs (blobPath base name) := by
  refine ⟨?_, ?_, ?_⟩
  · unfold lsDownload lsUpload
    exact fsLookup_fsWrite_self _ _ _
  · unfold lsUploadStep1
    exact fsLookup_fsWrite_ne _ _ (tmpPath_ne base name)
  · unfold lsUploadStep2 lsUploadStep1
    rw [fsLookup_fsWrite_ne _ _ (tmpPath_ne base name),
        fsLookup_fsWrite_ne _ _ (tmpPath_ne base name)]

/-- C7: for the local backend, deleting a name succeeds without error even
when the blob does not exist, and after a Delete the name no longer
Exists. -/
theorem c7_delete_idempotent (fs : FS) (base name : List Char)
    (hnd : (fs.map Prod.fst).Nodup) :
    (lsDelete fs base name).2 = none ∧
    (lsExists fs base name = false → (lsDelete fs base name).1 = fs) ∧
    lsExists (lsDelete fs base name).1 base name = false := by
  cases hl : fsLookup fs (blobPath base name) with
  | none =>
    refine ⟨?_, ?_, ?_⟩ <;> simp [lsDelete, osRemove, hl, lsExists]
  | some d =>
    refine ⟨?_, ?_, ?_⟩
    · simp [lsDelete, osRemove, hl]
    · intro hex
      simp [lsExists, hl] at hex
    · simp [lsDelete, osRemove, hl, lsExists,
        fsLookup_fsErase_self (blobPath base name) hnd]

/-- Witness for C7 at concrete inputs: deleting from an empty store reports
no error, and a stored blob no longer exists after deletion. -/
theorem c7_delete_idempotent_witness :
    (lsDelete ([] : FS) "b".data "n".data).2 = none ∧
    lsExists (lsDelete [(blobPath "b".data "n".data, [1])] "b".data "n".data).1
        "b".data "n".data = false :=
  ⟨(c7_delete_idempotent [] "b".data "n".data (by decide)).1,
   (c7_delete_idempotent [(blobPath "b".data "n".data, [1])] "b".data "n".data
      (by decide)).2.2⟩

/-- C8: when the blob store reports the database object absent, the cache
download succeeds, leaves an empty (zero-byte) local file at the cache's
local path, and records the sync time. -/
theorem c8_cache_bootstrap (c : DatabaseCache) (fs : FS) (now : Nat) :
    (cacheDownload c (Except.ok none) fs now).2.2 = none ∧
    fsLookup (cacheDownload c (Except.ok none) fs now).2.1 c.localPath = some [] ∧
    (cacheDownload c (Except.ok none) fs now).1.lastSync = now := by
  refine ⟨rfl, ?_, rfl⟩
  simp [cacheDownload, fsLookup_fsWrite_self]

/-- C9: the error translator classifies by ordered substring matching: a
message containing the UNIQUE-constraint pattern maps to 23505 even though
the generic constraint-failed pattern is also a substring of it, a message
containing the no-such-table pattern maps to 42P01, and a message matching
none of the patterns maps to XX000 rather than failing. -/
theorem c9_error_translation (m : List Char) :
    MapSQLiteError (some "UNIQUE constraint failed".data) = "23505".data ∧
    IsSubstringOf "constraint failed".data "UNIQUE constraint failed".data ∧
    MapSQLiteError (some "no such table".data) = "42P01".data ∧
    ((∀ pat ∈ sqliteErrorPatterns, goContains pat m = false) →
        MapSQLiteError (some m) = "XX000".data) := by
  refine ⟨by decide, ⟨"UNIQUE ".data, [], by decide⟩, by decide, ?_⟩
  intro h
  simp only [sqliteErrorPatterns, List.mem_cons, List.not_mem_nil, or_false,
    forall_eq_or_imp, forall_eq] at h
  obtain ⟨h1, h2, h3, h4, h5, h6, h7, h8, h9, h10, h11, h12, h13⟩ := h
  simp [MapSQLiteError, h1, h2, h3, h4, h5, h6, h7, h8, h9, h10, h11, h12, h13]

/-- Witness for C9 at a concrete input: an unrecognized message is
unclassified. -/
theorem c9_error_translation_witness :
    MapSQLiteError (some "mystery".data) = "XX000".data :=
  (c9_error_translation "mystery".data).2.2.2 (by decide)

theorem wfPrep_prepare (st : PrepState) (name : List Char) (engineOk : Bool)
    (hwf : WfPrep st) : WfPrep (Prepare st name engineOk).1 := by
  obtain ⟨hkeys, hopen, hmap, hbound⟩ := hwf
  have hopenE : ∀ old : Nat, (st.openHandles.erase old).Nodup :=
    fun old => hopen.erase old
  have hboundE : ∀ old : Nat, ∀ h ∈ st.openHandles.erase old, h < st.nextHandle :=
    fun old h hh => hbound h (List.mem_of_mem_erase hh)
  have hnextopen : st.nextHandle ∉ st.openHandles :=
    fun hmem => lt_irrefl _ (hbound _ hmem)
  have hnextopenE : ∀ old : Nat, st.nextHandle ∉ st.openHandles.erase old :=
    fun old hmem => lt_irrefl _ (hboundE old _ hmem)
  cases hl : stmtLookup st.preparedStmts name with
  | none =>
    cases engineOk with
    | false =>
      simp only [Prepare, hl]
      exact ⟨hkeys, by simpa using hopen, hmap, by simpa using hbound⟩
    | true =>
      simp only [Prepare, hl]
      refine ⟨keys_stmtInsert_nodup hkeys, ?_, ?_, ?_⟩
      · exact List.nodup_cons.mpr ⟨hnextopen, hopen⟩
      · intro e he
        rcases mem_stmtInsert he with rfl | he
        · exact Nat.lt_succ_self _
        · exact Nat.lt_succ_of_lt (hmap e he)
      · intro h hh
        rcases List.mem_cons.mp hh with rfl | hh
        · exact Nat.lt_succ_self _
        · exact Nat.lt_succ_of_lt (hbound h hh)
  | some old =>
    cases engineOk with
    | false =>
      simp only [Prepare, hl]
      exact ⟨hkeys, by simpa using hopenE old, hmap, by simpa using hboundE old⟩
    | true =>
      simp only [Prepare, hl]
      refine ⟨keys_stmtInsert_nodup hkeys, ?_, ?_, ?_⟩
      · exact List.nodup_cons.mpr ⟨hnextopenE old, hopenE old⟩
      · intro e he
        rcases mem_stmtInsert he with rfl | he
        · exact Nat.lt_succ_self _
        · exact Nat.lt_succ_of_lt (hmap e he)
      · intro h hh
        rcases List.mem_cons.mp hh with rfl | hh
        · exact Nat.lt_succ_self _
        · exact Nat.lt_succ_of_lt (hboundE old h hh)

theorem wfPrep_close (st : PrepState) (name : List Char) (hwf : WfPrep st) :
    WfPrep (ClosePrepared st name).1 := by
  obtain ⟨hkeys, hopen, hmap, hbound⟩ := hwf
  cases hl : stmtLookup st.preparedStmts name with
  | none =>
    simp only [ClosePrepared, hl]
    exact ⟨hkeys, hopen, hmap, hbound⟩
  | some h =>
    simp only [ClosePrepared, hl]
    exact ⟨keys_stmtRemove_nodup hkeys, hopen.erase h,
           fun e he => hmap e (mem_stmtRemove he),
           fun x hx => hbound x (List.mem_of_mem_erase hx)⟩

/-- C10: preparing under an already-bound name first closes the previously
bound statement handle (it is no longer open afterwards) and then rebinds
the name to the freshly prepared open statement, leaving other names'
bindings unchanged; preparing under a fresh name simply adds the binding;
and well-formedness (in particular, each name bound to a single statement
entry) is preserved by Prepare and ClosePrepared. -/
theorem c10_prepare_rebind (st : PrepState) (name : List Char) (hwf : WfPrep st) :
    (∀ old, stmtLookup st.preparedStmts name = some old →
        stmtLookup (Prepare st name true).1.preparedStmts name = some st.nextHandle ∧
        old ∉ (Prepare st name true).1.openHandles ∧
        st.nextHandle ∈ (Prepare st name true).1.openHandles ∧
        (∀ n, n ≠ name →
            stmtLookup (Prepare st name true).1.preparedStmts n
              = stmtLookup st.preparedStmts n)) ∧
    (stmtLookup st.preparedStmts name = none →
        stmtLookup (Prepare st name true).1.preparedStmts name = some st.nextHandle ∧
        st.nextHandle ∈ (Prepare st name true).1.openHandles ∧
        (∀ n, n ≠ name →
            stmtLookup (Prepare st name true).1.preparedStmts n
              = stmtLookup st.preparedStmts n)) ∧
    (∀ engineOk, WfPrep (Prepare st name engineOk).1) ∧
    WfPrep (ClosePrepared st name).1 := by
  obtain ⟨hkeys, hopen, hmap, hbound⟩ := hwf
  refine ⟨?_, ?_,
    fun engineOk => wfPrep_prepare st name engineOk ⟨hkeys, hopen, hmap, hbound⟩,
    wfPrep_close st name ⟨hkeys, hopen, hmap, hbound⟩⟩
  · intro old hl
    simp only [Prepare, hl]
    refine ⟨stmtLookup_stmtInsert_self _ _ _, ?_, ?_, ?_⟩
    · intro hmem
      rcases List.mem_cons.mp hmem with he | he
      · subst he
        exact lt_irrefl _ (hmap _ (mem_of_stmtLookup hl))
      · exact ((hopen.mem_erase_iff).mp he).1 rfl
    · exact List.mem_cons_self _ _
    · intro n hn
      exact stmtLookup_stmtInsert_ne _ _ hn
  · intro hl
    simp only [Prepare, hl]
    exact ⟨stmtLookup_stmtInsert_self _ _ _, List.mem_cons_self _ _,
           fun n hn => stmtLookup_stmtInsert_ne _ _ hn⟩

/-- Witness for C10 at a concrete input: re-preparing the bound name closes
the old handle. -/
theorem c10_prepare_rebind_witness :
    (0 : Nat) ∉ (Prepare ⟨[("a".data, 0)], [0], 1⟩ "a".data true).1.openHandles :=
  ((c10_prepare_rebind ⟨[("a".data, 0)], [0], 1⟩ "a".data (by decide)).1
    0 (by decide)).2.1
